import Mathlib

/-!
Verification development for the RedditTrend harvester.

The definitions below are a shallow embedding of the Python sources
`execution/server.py` and `execution/fetch_reddit_posts.py`:
pure string manipulation is modelled over `List Char`, HTTP traffic is
modelled by response oracles, registry state by the parsed community list,
and float arithmetic by exact rationals.
-/

/-! ## Character/string scanning (embedding of the regex cascade in server.py)

Python `re.search` over the three fixed patterns of `parse_reddit_url`
(server.py lines 62-69) reduces to leftmost scanning for a literal,
followed by maximal word-character runs: since a greedy run of word
characters cannot cross the separator character `/`, backtracking never
changes the captured groups, so maximal-run matching is exact.
-/

/-- Python regex word character for ASCII input: letter, digit or underscore. -/
def isWordChar (c : Char) : Bool := c.isAlpha || c.isDigit || c == '_'

/-- Does the string `s` start with the literal pattern `lit`? -/
def charsStartWith : List Char → List Char → Bool
  | [], _ => true
  | _ :: _, [] => false
  | c :: cs, d :: ds => c == d && charsStartWith cs ds

/-- Match, anchored at the head of `s`, the pattern
`lit (\w+) mid (\w+)` and return the two captured groups. -/
def matchTwoAt (lit mid s : List Char) : Option (List Char × List Char) :=
  if charsStartWith lit s then
    let r1 := s.drop lit.length
    let g1 := r1.takeWhile isWordChar
    if g1.isEmpty then none
    else
      let r2 := r1.drop g1.length
      if charsStartWith mid r2 then
        let r3 := r2.drop mid.length
        let g2 := r3.takeWhile isWordChar
        if g2.isEmpty then none else some (g1, g2)
      else none
  else none

/-- Leftmost search (Python `re.search`) for `lit (\w+) mid (\w+)`. -/
def searchTwo (lit mid : List Char) : List Char → Option (List Char × List Char)
  | [] => none
  | c :: rest =>
    match matchTwoAt lit mid (c :: rest) with
    | some r => some r
    | none => searchTwo lit mid rest

/-- Match, anchored at the head of `s`, the pattern `lit (\w+)`. -/
def matchOneAt (lit s : List Char) : Option (List Char) :=
  if charsStartWith lit s then
    let r1 := s.drop lit.length
    let g1 := r1.takeWhile isWordChar
    if g1.isEmpty then none else some g1
  else none

/-- Leftmost search for `lit (\w+)`. -/
def searchOne (lit : List Char) : List Char → Option (List Char)
  | [] => none
  | c :: rest =>
    match matchOneAt lit (c :: rest) with
    | some r => some r
    | none => searchOne lit rest

/-- Python `str.strip` over the underlying characters. -/
def trimChars (s : List Char) : List Char :=
  ((s.dropWhile Char.isWhitespace).reverse.dropWhile Char.isWhitespace).reverse

/-- Python `str.strip` on a string value. -/
def strStrip (s : String) : String := String.mk (trimChars s.data)

/-- Python `str.lower` on a string value (ASCII input). -/
def strLower (s : String) : String := String.mk (s.data.map Char.toLower)

/-! ## parse_reddit_url and is_subreddit_only_url (server.py lines 51-87) -/

/-- The classification produced by `parse_reddit_url`: the dictionaries
with key `type` equal to `post`, `share` or `short`. -/
inductive ParsedUrl
  | post (subreddit : String) (postId : String)
  | share (subreddit : String) (shareId : String)
  | short (postId : String)
deriving DecidableEq

/-- Embedding of `parse_reddit_url` (server.py lines 51-80): the three
regex patterns are tried in order over the whole input; the optional
scheme and `www.`/`old.` prefixes of the patterns never affect
matchability or the captured groups, so only the mandatory literals are
scanned for. -/
def parse_reddit_url (url : String) : Option ParsedUrl :=
  match searchTwo "reddit.com/r/".data "/comments/".data url.data with
  | some (a, b) => some (.post (String.mk a) (String.mk b))
  | none =>
    match searchTwo "reddit.com/r/".data "/s/".data url.data with
    | some (a, b) => some (.share (String.mk a) (String.mk b))
    | none =>
      match searchOne "redd.it/".data url.data with
      | some a => some (.short (String.mk a))
      | none => none

/-- Does the pattern `reddit.com/r/\w+/?` match `s` exactly to its end? -/
def subredditOnlyAt (s : List Char) : Bool :=
  charsStartWith "reddit.com/r/".data s &&
    (let rest := s.drop ("reddit.com/r/".data).length
     let g := rest.takeWhile isWordChar
     !g.isEmpty && (rest.drop g.length == [] || rest.drop g.length == ['/']))

/-- Leftmost search for the end-anchored subreddit-only pattern. -/
def subredditOnlySearch : List Char → Bool
  | [] => false
  | c :: rest => subredditOnlyAt (c :: rest) || subredditOnlySearch rest

/-- Embedding of `is_subreddit_only_url` (server.py lines 83-87):
`re.search` of `reddit\.com/r/\w+/?$` over the stripped URL. -/
def is_subreddit_only_url (url : String) : Bool :=
  subredditOnlySearch (strStrip url).data

/-- Claim C4: the URL resolver on
`https://example.com/r/python/comments/abc123/some-title/`.
This counterexample shows the claim is false on the code: every pattern of
`parse_reddit_url` demands a `reddit.com` (or `redd.it`) host literal, and
the `example.com` URL matches none of them, so the resolver returns no
classification at all rather than a Direct result. -/
theorem c4_counterexample :
    ¬ (parse_reddit_url "https://example.com/r/python/comments/abc123/some-title/"
        = some (.post "python" "abc123")) := by decide

/-- Claim C4 (amended): `parse_reddit_url` rejects the `example.com` URL
(no pattern matches, the result is `none`), while the same path on a
`www.reddit.com` host is classified as a direct post link with community
`python` and post id `abc123`. -/
theorem c4_amended :
    parse_reddit_url "https://example.com/r/python/comments/abc123/some-title/" = none
    ∧ parse_reddit_url "https://www.reddit.com/r/python/comments/abc123/some-title/"
        = some (.post "python" "abc123") := by
  constructor <;> decide

/-! ## fetch_reddit_post front end (server.py lines 109-150)

The URL-classification stage of `fetch_reddit_post`, up to the point where
either a specific error is returned or the post-lookup request URL is
determined.  The HTTP redirect follower `resolve_share_url` is an external
effect and is passed in as an oracle `resolver`; `none` models a failed
resolution (the Python function returns `None` on failure).  The function
recurses on a freshly resolved URL exactly as the Python code does, so it
carries fuel; the claims below only concern non-recursive branches. -/

/-- Outcome of the classification stage of `fetch_reddit_post`. -/
inductive FetchFront
  /-- The subreddit-only rejection (server.py lines 113-117). -/
  | errSubredditOnly
  /-- The invalid-URL rejection (server.py lines 120-126). -/
  | errInvalidUrl
  /-- The specific share-link failure (server.py line 139). -/
  | errShareResolveFailed
  /-- The missing-post-id rejection (server.py line 145). -/
  | errNoPostId
  /-- Classification succeeded: the lookup request is issued for this
  optional subreddit and post id (server.py lines 147-150). -/
  | request (subreddit : Option String) (postId : String)
deriving DecidableEq

/-- Embedding of the front end of `fetch_reddit_post`.  Python truthiness
is modelled exactly: a `None` or empty-string resolver result takes the
error branch, and an empty post id takes the missing-id branch. -/
def fetchFront (resolver : String → Option String) : Nat → String → Option FetchFront
  | 0, _ => none
  | fuel + 1, url =>
    if is_subreddit_only_url url then some .errSubredditOnly
    else
      match parse_reddit_url url with
      | none => some .errInvalidUrl
      | some (.share _ _) =>
        match resolver (strStrip url) with
        | none => some .errShareResolveFailed
        | some resolved =>
          if resolved = "" then some .errShareResolveFailed
          else
            match parse_reddit_url resolved with
            | some (.post sub pid) =>
              if pid = "" then some .errNoPostId else some (.request (some sub) pid)
            | _ => fetchFront resolver fuel resolved
      | some (.post sub pid) =>
        if pid = "" then some .errNoPostId else some (.request (some sub) pid)
      | some (.short pid) =>
        if pid = "" then some .errNoPostId else some (.request none pid)

/-- Claim C6: whenever `fetch_reddit_post` classifies a URL as a share
link (it is not subreddit-only and the share pattern matched) and the
redirect resolver fails to produce a final URL, the operation returns the
specific share-resolution error — it never falls through silently. -/
theorem c6_share_resolve_error (resolver : String → Option String) (fuel : Nat)
    (url s i : String)
    (h1 : is_subreddit_only_url url = false)
    (h2 : parse_reddit_url url = some (.share s i))
    (h3 : resolver (strStrip url) = none) :
    fetchFront resolver (fuel + 1) url = some .errShareResolveFailed := by
  simp only [fetchFront, h1, h2, h3, Bool.false_eq_true, if_false]

/-- Claim C6 witness: a concrete share URL with a resolver that always
fails reaches the specific share-resolution error. -/
theorem c6_share_resolve_error_witness :
    fetchFront (fun _ => none) 1 "https://www.reddit.com/r/python/s/abc123"
      = some .errShareResolveFailed :=
  c6_share_resolve_error (fun _ => none) 0 "https://www.reddit.com/r/python/s/abc123"
    "python" "abc123" (by decide) (by decide) rfl

/-! ## Community registry (server.py lines 209-266)

`get_communities` parses the `TARGET_SUBREDDITS` line of the `.env` file
into the ordered list of community names; `add_community` re-reads that
list, performs a case-insensitive membership test, and on success appends
the stripped name to the line and writes the file back.  The registry is
modelled at the level of the parsed list: with a well-formed
`TARGET_SUBREDDITS` line, the text edit at lines 238-249 appends exactly
one entry to the parsed sequence. -/

/-- Result of `add_community`: the success dictionary or the
already-registered error dictionary. -/
inductive AddResult
  | added
  | alreadyExists
deriving DecidableEq

/-- Embedding of `add_community` (server.py lines 217-266) over the
parsed registry list: strip the name, test membership case-insensitively,
and append on success. -/
def addCommunity (communities : List String) (name : String) :
    AddResult × List String :=
  let nameClean := strStrip name
  if strLower nameClean ∈ communities.map strLower then
    (.alreadyExists, communities)
  else
    (.added, communities ++ [nameClean])

/-- Claim C5: the claim quantifies over every registry state, but on a
registry that already contains `foo` both calls return the
already-registered result and the size stays at the original size, not
original size plus one.  This counterexample evaluates the two calls on
the registry `[foo]`. -/
theorem c5_counterexample :
    ¬ ((addCommunity (addCommunity ["foo"] "Foo").2 "foo").2.length
        = (["foo"] : List String).length + 1) := by decide

/-- Claim C5 (amended): on every registry state that does not already
contain `foo` case-insensitively, `add("Foo")` succeeds, the following
`add("foo")` returns alreadyExists, and the registry grows by exactly
one entry. -/
theorem c5_amended (state : List String)
    (h : "foo" ∉ state.map strLower) :
    (addCommunity state "Foo").1 = .added
    ∧ (addCommunity (addCommunity state "Foo").2 "foo").1 = .alreadyExists
    ∧ (addCommunity (addCommunity state "Foo").2 "foo").2.length
        = state.length + 1 := by
  have hfoo : strLower (strStrip "foo") = "foo" := by decide
  have hFooStrip : strStrip "Foo" = "Foo" := by decide
  have hFooLow : strLower "Foo" = "foo" := by decide
  have h1 : (addCommunity state "Foo") = (.added, state ++ ["Foo"]) := by
    simp only [addCommunity, hFooStrip, hFooLow]
    rw [if_neg h]
  have hmem : "foo" ∈ (state ++ ["Foo"]).map strLower := by
    simp only [List.map_append, List.mem_append, List.map_cons, List.map_nil,
      List.mem_singleton]
    right
    decide
  have h2 : (addCommunity (state ++ ["Foo"]) "foo")
      = (.alreadyExists, state ++ ["Foo"]) := by
    simp only [addCommunity, hfoo]
    rw [if_pos hmem]
  refine ⟨by rw [h1], ?_, ?_⟩
  · rw [h1]; simp only [h2]
  · rw [h1]; simp only [h2, List.length_append, List.length_cons, List.length_nil]

/-- Claim C5 amended witness: the two calls on the concrete registry
containing only `python`. -/
theorem c5_amended_witness :
    (addCommunity ["python"] "Foo").1 = .added
    ∧ (addCommunity (addCommunity ["python"] "Foo").2 "foo").1 = .alreadyExists
    ∧ (addCommunity (addCommunity ["python"] "Foo").2 "foo").2.length
        = (["python"] : List String).length + 1 :=
  c5_amended ["python"] (by decide)

/-! ## Lost-update race on the registry (server.py lines 217-266, 479-482)

The control-plane server is a `ThreadingHTTPServer`: each request runs on
its own thread, and `add_community` performs an unguarded
read-modify-write of the `.env` registry.  One handler thread is modelled
as three atomic steps against the shared store: read the membership basis
(`get_communities`, line 219), read the file content (line 235), then
test-and-write (lines 223 and 249).  A schedule is a list of thread ids;
each step advances the named thread. -/

/-- One in-flight `add_community` handler: its argument, program counter,
the two values it has read, and its reported result. -/
structure RaceThread where
  name : String
  pc : Nat
  r1 : List String
  r2 : List String
  res : Option AddResult
deriving DecidableEq

/-- The shared registry plus the two handler threads. -/
structure RaceState where
  store : List String
  ta : RaceThread
  tb : RaceThread
deriving DecidableEq

/-- Thread identifiers for the two concurrent handlers. -/
inductive Tid
  | a
  | b
deriving DecidableEq

/-- One atomic step of a handler thread against the shared store,
following `add_community`: read the membership list, read the content,
then either report alreadyExists (no write, lines 223-228) or write the
appended registry (lines 242-249). -/
def raceStepThread (store : List String) (t : RaceThread) :
    List String × RaceThread :=
  match t.pc with
  | 0 => (store, { t with pc := 1, r1 := store })
  | 1 => (store, { t with pc := 2, r2 := store })
  | 2 =>
    if strLower (strStrip t.name) ∈ t.r1.map strLower then
      (store, { t with pc := 3, res := some .alreadyExists })
    else
      (t.r2 ++ [strStrip t.name], { t with pc := 3, res := some .added })
  | _ => (store, t)

/-- Advance the scheduled thread by one step. -/
def raceStep (s : RaceState) : Tid → RaceState
  | .a =>
    let p := raceStepThread s.store s.ta
    { s with store := p.1, ta := p.2 }
  | .b =>
    let p := raceStepThread s.store s.tb
    { s with store := p.1, tb := p.2 }

/-- Run a schedule of interleaved thread steps. -/
def raceRun (s : RaceState) (sched : List Tid) : RaceState :=
  sched.foldl raceStep s

/-- Empty registry with `add("alpha")` and `add("beta")` both pending. -/
def raceInit : RaceState :=
  ⟨[], ⟨"alpha", 0, [], [], none⟩, ⟨"beta", 0, [], [], none⟩⟩

/-- Claim C2: under the interleaving in which both handlers read the
empty registry before either writes, both `add` calls report success yet
the final persisted registry is `[beta]` — the addition of `alpha` is
lost to the read-modify-write race.  This evaluates the unguarded
`add_community` code on that schedule, refuting the no-lost-update
requirement. -/
theorem c2_lost_update :
    (raceRun raceInit [.a, .a, .b, .b, .a, .b]).ta.res = some .added
    ∧ (raceRun raceInit [.a, .a, .b, .b, .a, .b]).tb.res = some .added
    ∧ (raceRun raceInit [.a, .a, .b, .b, .a, .b]).store = ["beta"] := by
  refine ⟨?_, ?_, ?_⟩ <;> decide

/-! ## fetch_recent_posts pagination loop (fetch_reddit_posts.py lines 66-149)

The while loop of `fetch_recent_posts` is modelled as a fuel-indexed
recursion over a response oracle: `oracle n` is the response to the
n-th HTTP request issued by the loop.  The state mirrors the Python
locals `all_posts`, `fetched` and `after`; the post records themselves
are opaque (type parameter), since lines 121-135 only copy fields and do
not influence control flow.  The result is `none` when the fuel runs out,
that is, when the loop has not terminated within the given number of
iterations. -/

/-- One page of a listing response: the parsed children and the
pagination cursor. -/
structure ListingPage (α : Type) where
  children : List α
  after : Option String
deriving DecidableEq

/-- Outcome of one `requests.get` call. -/
inductive Resp (α : Type)
  /-- `requests.ConnectionError` (fetch_reddit_posts.py line 92). -/
  | connError
  /-- `requests.Timeout` (fetch_reddit_posts.py line 95). -/
  | timeout
  /-- An HTTP response with its status code, advertised retry delay and
  parsed body. -/
  | status (code : Nat) (retryAfter : Nat) (page : ListingPage α)
deriving DecidableEq

/-- Embedding of the while loop of `fetch_recent_posts`
(fetch_reddit_posts.py lines 82-149): one recursive call per loop
iteration, with the request counter `req` indexing the oracle.  A 429
response retries the same page — `acc`, `fetched` and the cursor `after`
are all unchanged (line 109); a 404/403 response discards everything and
returns the empty list (line 102); transport failures return the partial
collection (lines 94 and 97); any other non-200 status returns the
partial collection (line 113); an empty page breaks out of the loop
(line 119); otherwise the children are appended and the cursor advanced
(lines 137-143). -/
def fetchGo {α : Type} (oracle : Nat → Resp α) (limit : Nat) :
    Nat → Nat → List α → Nat → Option String → Option (List α)
  | 0, _, _, _, _ => none
  | fuel + 1, req, acc, fetched, after =>
    if limit ≤ fetched then some acc
    else
      match oracle req with
      | .connError => some acc
      | .timeout => some acc
      | .status code _ page =>
        if code = 404 ∨ code = 403 then some []
        else if code = 429 then fetchGo oracle limit fuel (req + 1) acc fetched after
        else if code ≠ 200 then some acc
        else if page.children.isEmpty then some acc
        else
          match page.after with
          | none => some (acc ++ page.children)
          | some a =>
            fetchGo oracle limit fuel (req + 1) (acc ++ page.children)
              (fetched + page.children.length) (some a)

/-- The number of rate-limit retries (429 `continue` iterations,
fetch_reddit_posts.py lines 105-109) the loop performs before it either
terminates or exhausts the given fuel. -/
def count429 {α : Type} (oracle : Nat → Resp α) (limit : Nat) :
    Nat → Nat → List α → Nat → Option String → Nat
  | 0, _, _, _, _ => 0
  | fuel + 1, req, acc, fetched, after =>
    if limit ≤ fetched then 0
    else
      match oracle req with
      | .connError => 0
      | .timeout => 0
      | .status code _ page =>
        if code = 404 ∨ code = 403 then 0
        else if code = 429 then
          count429 oracle limit fuel (req + 1) acc fetched after + 1
        else if code ≠ 200 then 0
        else if page.children.isEmpty then 0
        else
          match page.after with
          | none => 0
          | some a =>
            count429 oracle limit fuel (req + 1) (acc ++ page.children)
              (fetched + page.children.length) (some a)

/-- An endpoint that answers every request with HTTP 429 and an
advertised sixty-second delay. -/
def all429oracle : Nat → Resp Nat := fun _ => .status 429 60 ⟨[], none⟩

/-- On the always-429 oracle the loop state never changes, so every unit
of fuel is spent on one more retry of the same first page. -/
theorem count429_all429 (fuel req : Nat) :
    count429 all429oracle 100 fuel req ([] : List Nat) 0 none = fuel := by
  induction fuel generalizing req with
  | zero => rfl
  | succ n ih =>
    simp only [count429, all429oracle]
    norm_num
    exact ih (req + 1)

/-- Claim C3 counterexample: no fixed cap bounds the number of 429
retries for the first page — against an endpoint that answers 429
forever, the retry count grows beyond every candidate cap. -/
theorem c3_counterexample :
    ¬ ∃ cap : Nat, ∀ fuel : Nat,
        count429 all429oracle 100 fuel 0 ([] : List Nat) 0 none ≤ cap := by
  rintro ⟨cap, hcap⟩
  have h := hcap (cap + 1)
  rw [count429_all429] at h
  omega

/-- Claim C3 (amended): on a 429 response the loop does retry the same
page request without advancing the cursor or the collected posts, but
with no cap on the attempts: against an endpoint that always answers
429, the loop performs one retry per unit of fuel and never terminates
within any finite number of iterations. -/
theorem c3_amended (fuel : Nat) :
    fetchGo all429oracle 100 fuel 0 ([] : List Nat) 0 none = none
    ∧ count429 all429oracle 100 fuel 0 ([] : List Nat) 0 none = fuel := by
  refine ⟨?_, count429_all429 fuel 0⟩
  suffices h : ∀ f r, fetchGo all429oracle 100 f r ([] : List Nat) 0 none = none by
    exact h fuel 0
  intro f
  induction f with
  | zero => intro r; rfl
  | succ n ih =>
    intro r
    simp only [fetchGo, all429oracle]
    norm_num
    exact ih (r + 1)

/-- Claim C10: inside the pagination loop, in any state (so on any page,
not only the first) with the limit not yet reached, a 404 or 403
response makes the whole fetch return the empty list, discarding the
posts already collected, while a transport failure (connection error or
timeout) returns exactly the partial collection. -/
theorem c10_midrun_wipe {α : Type} (oracle : Nat → Resp α) (limit fuel req : Nat)
    (acc : List α) (fetched : Nat) (after : Option String)
    (hlt : fetched < limit) :
    (∀ code retryAfter page, (code = 404 ∨ code = 403) →
        oracle req = .status code retryAfter page →
        fetchGo oracle limit (fuel + 1) req acc fetched after = some [])
    ∧ (oracle req = .connError ∨ oracle req = .timeout →
        fetchGo oracle limit (fuel + 1) req acc fetched after = some acc) := by
  constructor
  · intro code retryAfter page hcode horacle
    simp only [fetchGo, horacle, if_neg (Nat.not_le_of_lt hlt), if_pos hcode]
  · intro horacle
    rcases horacle with h | h <;>
      simp only [fetchGo, h, if_neg (Nat.not_le_of_lt hlt)]

/-- Claim C10 witness: a concrete oracle whose first request delivers one
post and whose second request answers 404; resuming the loop after the
first page returns the empty list even though one post was already
collected, while a connection error at the same point would have
returned the collected post. -/
theorem c10_midrun_wipe_witness :
    fetchGo (fun r => if r = 0 then Resp.status 200 0 ⟨[7], some "t"⟩
        else Resp.status 404 0 ⟨([] : List Nat), none⟩) 5 4 1 [7] 1 (some "t")
      = some [] :=
  (c10_midrun_wipe (fun r => if r = 0 then Resp.status 200 0 ⟨[7], some "t"⟩
      else Resp.status 404 0 ⟨([] : List Nat), none⟩) 5 3 1 [7] 1 (some "t")
    (by decide)).1 404 0 ⟨[], none⟩ (Or.inl rfl) rfl

/-! ## Engagement scoring and ranking (fetch_reddit_posts.py lines 165-181)

Python float arithmetic is modelled by exact rationals.  `rank_top_posts`
first stores the rounded engagement score on every post (line 179), then
performs a stable descending sort keyed on that stored value
(`list.sort(key=..., reverse=True)`, line 180, which keeps equal-key
elements in input order), then truncates to the top N (line 181).  The
stable descending sort is rendered as an insertion sort that places an
element before every equal-key element that came later in the input —
extensionally the unique stable sort for this key, hence the same
function as Python Timsort. -/

/-- The fields of a raw post record consumed by the scoring formula. -/
structure RankPost where
  score : ℚ
  num_comments : ℚ
  upvote_ratio : ℚ
deriving DecidableEq

/-- The three configured weights (fetch_reddit_posts.py lines 50-52). -/
structure Weights where
  wScore : ℚ
  wComments : ℚ
  wRatio : ℚ
deriving DecidableEq

/-- Embedding of `calculate_engagement` (fetch_reddit_posts.py
lines 165-173). -/
def calculate_engagement (w : Weights) (p : RankPost) : ℚ :=
  p.score * w.wScore + p.num_comments * w.wComments + p.upvote_ratio * w.wRatio

/-- Python `round(x, 2)`: scale by one hundred, round half to even,
scale back. -/
def round2 (q : ℚ) : ℚ :=
  let f : ℤ := ⌊q * 100⌋
  let r : ℚ := q * 100 - f
  let n : ℤ :=
    if r < 1 / 2 then f
    else if 1 / 2 < r then f + 1
    else if f % 2 = 0 then f else f + 1
  (n : ℚ) / 100

/-- Insert a scored post into a descending-sorted list, before every
entry with an equal or smaller key: entries inserted later came earlier
in the input, so input order is kept among equal keys. -/
def insertDesc (x : RankPost × ℚ) : List (RankPost × ℚ) → List (RankPost × ℚ)
  | [] => [x]
  | y :: ys => if x.2 < y.2 then y :: insertDesc x ys else x :: y :: ys

/-- Stable descending sort on the stored engagement score. -/
def sortDesc : List (RankPost × ℚ) → List (RankPost × ℚ)
  | [] => []
  | x :: xs => insertDesc x (sortDesc xs)

/-- Embedding of `rank_top_posts` (fetch_reddit_posts.py lines 176-181):
every post is paired with its rounded engagement score, the list is
stably sorted descending on that stored score, and the first `topN`
entries are returned. -/
def rank_top_posts (w : Weights) (posts : List RankPost) (topN : Nat) :
    List (RankPost × ℚ) :=
  (sortDesc (posts.map (fun p => (p, round2 (calculate_engagement w p))))).take topN

/-- Members of an insertion are the inserted element or old members. -/
theorem mem_insertDesc (x z : RankPost × ℚ) (l : List (RankPost × ℚ)) :
    z ∈ insertDesc x l → z = x ∨ z ∈ l := by
  induction l with
  | nil => intro h; simp only [insertDesc, List.mem_singleton] at h; exact Or.inl h
  | cons y ys ih =>
    intro h
    simp only [insertDesc] at h
    by_cases hxy : x.2 < y.2
    · rw [if_pos hxy] at h
      rcases List.mem_cons.mp h with h | h
      · exact Or.inr (h ▸ List.mem_cons_self y ys)
      · rcases ih h with h | h
        · exact Or.inl h
        · exact Or.inr (List.mem_cons_of_mem y h)
    · rw [if_neg hxy] at h
      rcases List.mem_cons.mp h with h | h
      · exact Or.inl h
      · exact Or.inr h

/-- Insertion preserves descending sortedness of the key. -/
theorem insertDesc_pairwise (x : RankPost × ℚ) (l : List (RankPost × ℚ))
    (h : l.Pairwise (fun a b => b.2 ≤ a.2)) :
    (insertDesc x l).Pairwise (fun a b => b.2 ≤ a.2) := by
  induction l with
  | nil => simp [insertDesc]
  | cons y ys ih =>
    rcases List.pairwise_cons.mp h with ⟨hy, hys⟩
    simp only [insertDesc]
    by_cases hxy : x.2 < y.2
    · rw [if_pos hxy]
      refine List.pairwise_cons.mpr ⟨?_, ih hys⟩
      intro z hz
      rcases mem_insertDesc x z ys hz with h | h
      · exact h ▸ le_of_lt hxy
      · exact hy z h
    · rw [if_neg hxy]
      refine List.pairwise_cons.mpr ⟨?_, h⟩
      intro z hz
      rcases List.mem_cons.mp hz with h | h
      · exact h ▸ le_of_not_lt hxy
      · exact le_trans (hy z h) (le_of_not_lt hxy)

/-- The sort output is descending in the stored score. -/
theorem sortDesc_pairwise (l : List (RankPost × ℚ)) :
    (sortDesc l).Pairwise (fun a b => b.2 ≤ a.2) := by
  induction l with
  | nil => simp [sortDesc]
  | cons x xs ih => exact insertDesc_pairwise x (sortDesc xs) ih

/-- Filtering on one key value commutes with insertion: the inserted
element lands before every equal-key element, and elements with other
keys are untouched. -/
theorem insertDesc_filter (x : RankPost × ℚ) (l : List (RankPost × ℚ)) (s : ℚ) :
    (insertDesc x l).filter (fun z => decide (z.2 = s))
      = if x.2 = s then x :: l.filter (fun z => decide (z.2 = s))
        else l.filter (fun z => decide (z.2 = s)) := by
  induction l with
  | nil =>
    by_cases hx : x.2 = s <;>
      simp [insertDesc, List.filter, hx]
  | cons y ys ih =>
    simp only [insertDesc]
    by_cases hxy : x.2 < y.2
    · rw [if_pos hxy]
      by_cases hx : x.2 = s
      · have hy : ¬ (y.2 = s) := by
          intro hy
          rw [hx, hy] at hxy
          exact lt_irrefl s hxy
        simp only [List.filter_cons, decide_eq_true_eq, if_neg hy, ih, if_pos hx,
          if_neg hy]
      · by_cases hy : y.2 = s <;>
          simp [List.filter_cons, hy, ih, hx]
    · rw [if_neg hxy]
      by_cases hx : x.2 = s <;>
        simp [List.filter_cons, hx]

/-- Stability of the sort: for every key value, the equal-key entries of
the output are exactly the equal-key entries of the input, in input
order. -/
theorem sortDesc_filter (l : List (RankPost × ℚ)) (s : ℚ) :
    (sortDesc l).filter (fun z => decide (z.2 = s))
      = l.filter (fun z => decide (z.2 = s)) := by
  induction l with
  | nil => rfl
  | cons x xs ih =>
    simp only [sortDesc, insertDesc_filter, List.filter_cons, decide_eq_true_eq]
    by_cases hx : x.2 = s <;> simp [hx, ih]

/-- Claim C7: the output of `rank_top_posts` is non-increasing in the
stored engagement score, and for every score value the equal-score
entries of the output form a sublist (hence keep the relative order) of
the equal-score entries of the scored input. -/
theorem c7_rank_sorted_stable (w : Weights) (posts : List RankPost) (topN : Nat)
    (s : ℚ) :
    (rank_top_posts w posts topN).Pairwise (fun a b => b.2 ≤ a.2)
    ∧ List.Sublist
        ((rank_top_posts w posts topN).filter (fun z => decide (z.2 = s)))
        ((posts.map (fun p => (p, round2 (calculate_engagement w p)))).filter
          (fun z => decide (z.2 = s))) := by
  constructor
  · exact List.Pairwise.sublist (List.take_sublist _ _) (sortDesc_pairwise _)
  · have h1 : List.Sublist
        ((rank_top_posts w posts topN).filter (fun z => decide (z.2 = s)))
        ((sortDesc (posts.map (fun p =>
            (p, round2 (calculate_engagement w p))))).filter
          (fun z => decide (z.2 = s))) :=
      List.Sublist.filter _ (List.take_sublist _ _)
    rw [sortDesc_filter] at h1
    exact h1

/-! ## Time-window filter (fetch_reddit_posts.py lines 155-159) -/

/-- The single field of a post record consumed by the recency filter. -/
structure TPost where
  created_utc : ℚ
deriving DecidableEq

/-- Embedding of `filter_by_period` (fetch_reddit_posts.py
lines 155-159): `now` is evaluated once and passed in; the cutoff is
`now` minus the period in seconds, and a post is retained when its
creation time is greater than or equal to the cutoff. -/
def filter_by_period (now : ℚ) (period_days : Nat) (posts : List TPost) :
    List TPost :=
  posts.filter (fun p => decide (now - (period_days : ℚ) * 86400 ≤ p.created_utc))

/-- Claim C9: for a fixed evaluation of `now`, a post created exactly at
`now` minus the window is retained — the lower boundary of the recency
window is inclusive. -/
theorem c9_boundary_inclusive (now : ℚ) (period_days : Nat) (posts : List TPost)
    (p : TPost) (hp : p ∈ posts)
    (hb : p.created_utc = now - (period_days : ℚ) * 86400) :
    p ∈ filter_by_period now period_days posts := by
  refine List.mem_filter.mpr ⟨hp, ?_⟩
  rw [decide_eq_true_eq, hb]

/-- Claim C9 witness: with `now` one million seconds and a seven-day
window, the post created exactly at the cutoff (395200 seconds) is
retained. -/
theorem c9_boundary_inclusive_witness :
    (⟨395200⟩ : TPost) ∈ filter_by_period 1000000 7 [⟨395200⟩] :=
  c9_boundary_inclusive 1000000 7 [⟨395200⟩] ⟨395200⟩ (List.mem_singleton.mpr rfl)
    (by norm_num)

/-- The concrete weight configuration of the scenario in the spec:
weight one on score, two on comments, fifty on the approval ratio. -/
def wEx : Weights := ⟨1, 2, 50⟩

/-- The concrete post of the scenario: score one hundred, ten comments,
approval ratio nine tenths. -/
def pEx : RankPost := ⟨100, 10, 9 / 10⟩

/-- Claim C8: with weights one, two and fifty, the post with score one
hundred, ten comments and approval ratio nine tenths gets raw engagement
exactly one hundred sixty five; rounding to two places leaves it
unchanged, and `rank_top_posts` stores and sorts on that rounded value,
surfacing the pair of the post with the score one hundred sixty five. -/
theorem c8_concrete_engagement :
    calculate_engagement wEx pEx = 165
    ∧ round2 (calculate_engagement wEx pEx) = 165
    ∧ rank_top_posts wEx [pEx] 1 = [(pEx, 165)] := by
  refine ⟨?_, ?_, ?_⟩
  · norm_num [calculate_engagement, wEx, pEx]
  · norm_num [calculate_engagement, round2, wEx, pEx]
  · norm_num [rank_top_posts, calculate_engagement, round2, wEx, pEx, sortDesc,
      insertDesc]

/-! ## Deduplicator (modelled from the spec)

The repository has no cross-category merge: `fetch_recent_posts` pulls
only the single `new` listing per community, so the Deduplicator
component exists only in the specification.  It is modelled here from
the words of the spec and the claims are settled against that model. -/

/-- A harvested post record as seen by the merge step: the platform-wide
stable id plus the snapshot data a later category occurrence might carry
with fresher values. -/
structure MPost where
  id : String
  score : ℤ
  commentCount : ℕ
deriving DecidableEq

/-- The four listing categories of the spec. -/
inductive Category
  | newest
  | hot
  | topOfWeek
  | rising
deriving DecidableEq

/-- Modelled from the spec: the fixed category evaluation order of the
Deduplicator — newest, hot, topOfWeek, rising. -/
def categoryOrder : List Category := [.newest, .hot, .topOfWeek, .rising]

/-- First-seen-wins scan: keep a record only when its id has not been
seen before, remembering seen ids in order. -/
def dedupeGo (seen : List String) : List MPost → List MPost
  | [] => []
  | p :: rest =>
    if p.id ∈ seen then dedupeGo seen rest
    else p :: dedupeGo (p.id :: seen) rest

/-- Drop every record whose id occurred earlier in the list. -/
def dedupeById (l : List MPost) : List MPost := dedupeGo [] l

namespace Deduplicator

/-- Modelled from the spec: `Deduplicator.merge` takes the mapping from
listing categories to the sequences of posts fetched for them,
concatenates the sequences in the fixed category evaluation order, and
keeps only the first occurrence of every id — a later occurrence of the
same id is discarded even if it carries more current field values. -/
def merge (m : Category → List MPost) : List MPost :=
  dedupeById ((categoryOrder.map m).flatten)

end Deduplicator

/-- The ids kept by the scan are fresh: none was seen before, and they
are pairwise distinct. -/
theorem dedupeGo_ids (seen : List String) (l : List MPost) :
    ((dedupeGo seen l).map MPost.id).Nodup
    ∧ ∀ x ∈ (dedupeGo seen l).map MPost.id, x ∉ seen := by
  induction l generalizing seen with
  | nil =>
    refine ⟨List.nodup_nil, ?_⟩
    intro x hx
    simp only [dedupeGo, List.map_nil, List.not_mem_nil] at hx
  | cons p rest ih =>
    by_cases hp : p.id ∈ seen
    · simpa only [dedupeGo, if_pos hp] using ih seen
    · have h := ih (p.id :: seen)
      constructor
      · simp only [dedupeGo, if_neg hp, List.map_cons, List.nodup_cons]
        refine ⟨?_, h.1⟩
        intro hmem
        exact absurd (List.mem_cons_self p.id seen) (h.2 p.id hmem)
      · intro x hx
        simp only [dedupeGo, if_neg hp, List.map_cons, List.mem_cons] at hx
        rcases hx with hx | hx
        · exact hx ▸ hp
        · intro hseen
          exact h.2 x hx (List.mem_cons_of_mem _ hseen)

/-- The scan returns a sublist of its input. -/
theorem dedupeGo_sublist (seen : List String) (l : List MPost) :
    List.Sublist (dedupeGo seen l) l := by
  induction l generalizing seen with
  | nil => exact List.Sublist.refl []
  | cons p rest ih =>
    by_cases hp : p.id ∈ seen
    · simp only [dedupeGo, if_pos hp]
      exact List.Sublist.cons p (ih seen)
    · simp only [dedupeGo, if_neg hp]
      exact List.Sublist.cons₂ p (ih (p.id :: seen))

/-- Every record whose id neither was pre-seen nor occurs earlier in the
list is kept by the scan. -/
theorem dedupeGo_keeps_first (seen : List String) (pre : List MPost) (q : MPost)
    (post : List MPost) (hq : q.id ∉ seen) (hpre : q.id ∉ pre.map MPost.id) :
    q ∈ dedupeGo seen (pre ++ q :: post) := by
  induction pre generalizing seen with
  | nil =>
    simp only [List.nil_append, dedupeGo, if_neg hq]
    exact List.mem_cons_self q _
  | cons a pre ih =>
    have hne : q.id ≠ a.id := by
      intro h
      exact hpre (by simp [h])
    have hpre2 : q.id ∉ pre.map MPost.id := by
      intro h
      exact hpre (List.mem_cons_of_mem _ h)
    by_cases ha : a.id ∈ seen
    · simp only [List.cons_append, dedupeGo, if_pos ha]
      exact ih seen hq hpre2
    · simp only [List.cons_append, dedupeGo, if_neg ha]
      refine List.mem_cons_of_mem a (ih (a.id :: seen) ?_ hpre2)
      intro h
      rcases List.mem_cons.mp h with h | h
      · exact hne h
      · exact hq h

/-- On input with pairwise-distinct ids, none pre-seen, the scan is the
identity. -/
theorem dedupeGo_of_nodup (seen : List String) (l : List MPost)
    (hn : (l.map MPost.id).Nodup) (hs : ∀ p ∈ l, p.id ∉ seen) :
    dedupeGo seen l = l := by
  induction l generalizing seen with
  | nil => rfl
  | cons p rest ih =>
    have hp : p.id ∉ seen := hs p (List.mem_cons_self p rest)
    simp only [dedupeGo, if_neg hp]
    congr 1
    refine ih (p.id :: seen) (List.nodup_cons.mp (by simpa using hn)).2 ?_
    intro q hq hmem
    rcases List.mem_cons.mp hmem with h | h
    · have : p.id ∈ rest.map MPost.id := h ▸ List.mem_map_of_mem MPost.id hq
      exact (List.nodup_cons.mp (by simpa using hn)).1 this
    · exact hs q (List.mem_cons_of_mem p hq) h

/-- Claim C1: for every mapping from categories to fetched sequences,
`Deduplicator.merge` yields pairwise-distinct ids, is a sublist of the
concatenation in the fixed category evaluation order, keeps every record
whose id has no earlier occurrence in that concatenation (first-seen
wins), and deduplicating its output again changes nothing, so re-running
merge on the same inputs yields the same sequence. -/
theorem c1_merge_unique_first_seen (m : Category → List MPost) :
    ((Deduplicator.merge m).map MPost.id).Nodup
    ∧ List.Sublist (Deduplicator.merge m) ((categoryOrder.map m).flatten)
    ∧ (∀ pre q post, (categoryOrder.map m).flatten = pre ++ q :: post →
        q.id ∉ pre.map MPost.id → q ∈ Deduplicator.merge m)
    ∧ dedupeById (Deduplicator.merge m) = Deduplicator.merge m := by
  refine ⟨(dedupeGo_ids [] _).1, dedupeGo_sublist [] _, ?_, ?_⟩
  · intro pre q post hsplit hpre
    unfold Deduplicator.merge dedupeById
    rw [hsplit]
    exact dedupeGo_keeps_first [] pre q post (by simp) hpre
  · exact dedupeGo_of_nodup [] _ (dedupeGo_ids [] _).1 (by
      intro p hp h
      simp at h)

/-- A concrete category mapping: the same id appears in two categories
with diverging snapshots, and the hot listing repeats an id of its own. -/
def mergeEx : Category → List MPost
  | .newest => [⟨"x1", 10, 1⟩, ⟨"x2", 5, 0⟩]
  | .hot => [⟨"x1", 99, 7⟩, ⟨"x3", 3, 2⟩]
  | .topOfWeek => [⟨"x2", 6, 1⟩]
  | .rising => []

/-- Claim C1 witness: on the concrete mapping, the theorem applied at the
split before the record with id x3 shows that record is kept, and the
instantiated conjuncts give distinct ids and an unchanged re-run; the
merge result itself evaluates to the three first occurrences. -/
theorem c1_merge_unique_first_seen_witness :
    (⟨"x3", 3, 2⟩ : MPost) ∈ Deduplicator.merge mergeEx
    ∧ ((Deduplicator.merge mergeEx).map MPost.id).Nodup
    ∧ dedupeById (Deduplicator.merge mergeEx) = Deduplicator.merge mergeEx
    ∧ Deduplicator.merge mergeEx
        = [⟨"x1", 10, 1⟩, ⟨"x2", 5, 0⟩, ⟨"x3", 3, 2⟩] :=
  ⟨(c1_merge_unique_first_seen mergeEx).2.2.1
      [⟨"x1", 10, 1⟩, ⟨"x2", 5, 0⟩, ⟨"x1", 99, 7⟩] ⟨"x3", 3, 2⟩ [⟨"x2", 6, 1⟩]
      (by decide) (by decide),
    (c1_merge_unique_first_seen mergeEx).1,
    (c1_merge_unique_first_seen mergeEx).2.2.2,
    by decide⟩
